/-
  Verification of the appointment-scheduling subsystem of the
  Smart-Healthcare-Portal repository (VitalSync).

  The embedding has two parts:
  * definitions taken directly from the frontend source
    (src/frontend/src/pages/RegisterPage.jsx, AppointmentsPage component):
    the fixed `timeSlots` template, the calendar disabled-date predicate
    `(date) => date < new Date() || date.getDay() === 0`, and the
    time-slot picker;
  * the backend scheduling core (AvailabilityIndex, BookingService,
    LifecycleManager, QueryService).  The FastAPI backend file is not part
    of the source tree, so these are modelled from the specification
    (sections 4.2 - 4.5), as marked on each definition.

  Dates are modelled as day numbers since 1970-01-01 (a Thursday), so the
  JavaScript `getDay()` of day `d` is `(d + 4) % 7`, with 0 = Sunday.
  Instants are minutes: day `d` at midnight is `d * 1440`.
-/
import Mathlib

namespace VitalSync

/-- Status of an appointment.  Modelled from the spec:
status is one of Scheduled, Completed, Cancelled (spec section 3); the
backend file carrying the enumeration is not in the source tree. -/
inductive Status where
  | Scheduled
  | Completed
  | Cancelled
deriving DecidableEq, Repr

/-- Modelled from the spec: a doctor record as seen by the scheduling core
(spec section 3): identity, specialty, weekly working-day set (JS day
numbers, 0 = Sunday), daily slot template, consultation fee. -/
structure Doctor where
  id : Nat
  specialty : String
  workingDays : List Nat
  slotTemplate : List String
  fee : Nat
deriving DecidableEq, Repr

/-- A slot coordinate: (doctorId, date, timeOfDay). -/
abbrev SlotKey := Nat × Nat × String

/-- Modelled from the spec: an appointment record (spec section 3); the
backend file carrying the model is not in the source tree. -/
structure Appointment where
  id : Nat
  patientId : Nat
  doctorId : Nat
  date : Nat
  time : String
  reason : String
  notes : String
  status : Status
  createdAt : Nat
deriving DecidableEq, Repr

/-- The slot coordinate claimed by an appointment. -/
def Appointment.slotKey (a : Appointment) : SlotKey := (a.doctorId, a.date, a.time)

/- ----------------------------------------------------------------
   Frontend definitions, taken from the source
   (src/frontend/src/pages/RegisterPage.jsx, AppointmentsPage).
   ---------------------------------------------------------------- -/

/-- The fixed global time-slot template, verbatim from
RegisterPage.jsx lines 270-274 (`const timeSlots = [...]`). -/
def timeSlots : List String :=
  ["09:00 AM", "09:30 AM", "10:00 AM", "10:30 AM",
   "11:00 AM", "11:30 AM", "02:00 PM", "02:30 PM",
   "03:00 PM", "03:30 PM", "04:00 PM", "04:30 PM"]

/-- JavaScript `Date.getDay()` for day number `d` (days since
1970-01-01, which was a Thursday): 0 = Sunday, ..., 6 = Saturday. -/
def jsGetDay (d : Nat) : Nat := (d + 4) % 7

/-- The calendar's disabled-date predicate, from RegisterPage.jsx line 453:
`disabled={(date) => date < new Date() || date.getDay() === 0}`.
The calendar hands the callback each day at midnight (instant `d * 1440`
minutes) and `new Date()` is the current instant
(`today * 1440 + nowMin` minutes, `nowMin` = minutes past midnight). -/
def calendarDisabled (today nowMin d : Nat) : Bool :=
  decide (d * 1440 < today * 1440 + nowMin) || (jsGetDay d == 0)

/-- Dates of the range [lo, hi] that the appointment calendar lets the
user select (those not disabled). -/
def offeredDates (lo hi today nowMin : Nat) : List Nat :=
  (List.range' lo (hi + 1 - lo)).filter (fun d => !(calendarDisabled today nowMin d))

/-- The time values the slot picker offers once a doctor is selected:
RegisterPage.jsx lines 468-481 render one button per element of the
module-level `timeSlots` constant, independent of the selected doctor. -/
def pickerTimes (_doc : Doctor) : List String := timeSlots

/-- The set of bookable (date, time) slots the appointment form offers
for a selected doctor over a date range: every selectable calendar date
paired with every picker time. -/
def offeredSlots (doc : Doctor) (lo hi today nowMin : Nat) : List (Nat × String) :=
  (offeredDates lo hi today nowMin).flatMap (fun d => (pickerTimes doc).map (fun t => (d, t)))

/-- The booking form's time field: it starts empty (`time: ''` in the
initial `formData`) and is only ever set by clicking one of the picker
buttons, which carry the elements of `pickerTimes` of the currently
selected doctor (RegisterPage.jsx lines 283-288 and 468-481). -/
inductive FormTimeReachable : String → Prop where
  | init : FormTimeReachable ""
  | click (prev t : String) (doc : Doctor) :
      FormTimeReachable prev → t ∈ pickerTimes doc → FormTimeReachable t

/-- The required-fields guard of `handleSubmit`
(RegisterPage.jsx line 313) accepts the time field only when it is
truthy, i.e. not the empty string. -/
def submitTimeAccepted (time : String) : Bool := !(time == "")

/- ----------------------------------------------------------------
   AvailabilityIndex.  Modelled from the spec (section 4.2); the backend
   file is not in the source tree.
   ---------------------------------------------------------------- -/

/-- Modelled from the spec: `isHeld(doctorId, date, timeOfDay) → bool`
(spec section 4.2). -/
def isHeld (idx : List SlotKey) (k : SlotKey) : Bool := decide (k ∈ idx)

/-- Modelled from the spec: `hold(doctorId, date, timeOfDay) →
success | AlreadyHeld` (spec section 4.2); `none` is AlreadyHeld,
`some` carries the updated index. -/
def hold (idx : List SlotKey) (k : SlotKey) : Option (List SlotKey) :=
  if k ∈ idx then none else some (k :: idx)

/-- Modelled from the spec: `release(doctorId, date, timeOfDay) → void`,
idempotent, releasing an unheld slot is a no-op (spec section 4.2). -/
def release (idx : List SlotKey) (k : SlotKey) : List SlotKey :=
  idx.filter (fun k2 => decide (k2 ≠ k))

/- ----------------------------------------------------------------
   AppointmentStore / BookingService / LifecycleManager.
   Modelled from the spec (sections 4.3 - 4.4); the backend file is not
   in the source tree.
   ---------------------------------------------------------------- -/

/-- Modelled from the spec: the mutable state of the scheduling core —
the appointment store, the availability index, and the id counter used
to mint fresh appointment identities. -/
structure Store where
  appts : List Appointment
  index : List SlotKey
  nextId : Nat
deriving DecidableEq, Repr

/-- The empty initial store. -/
def Store.init : Store := ⟨[], [], 0⟩

/-- Modelled from the spec: the read-only environment of a request —
the doctor catalog and the server clock's current calendar day. -/
structure Env where
  doctors : List Doctor
  today : Nat
deriving DecidableEq, Repr

/-- Modelled from the spec: resolving a doctorId against the catalog. -/
def findDoctor (env : Env) (doctorId : Nat) : Option Doctor :=
  env.doctors.find? (fun doc => doc.id == doctorId)

/-- Errors of the booking path (spec section 7). -/
inductive BookingError where
  | InvalidInput
  | InvalidSlot
  | DoctorNotFound
  | SlotConflict
  | PersistenceFailure
deriving DecidableEq, Repr

/-- Errors of the cancellation/lifecycle path (spec section 7). -/
inductive CancelError where
  | NotFound
  | Forbidden
  | InvalidTransition
deriving DecidableEq, Repr

/-- The appointment record persisted by a successful booking: a fresh
identity, the request data, status Scheduled, created on the current
day. -/
def newAppt (env : Env) (s : Store) (patientId doctorId date : Nat)
    (time reason notes : String) : Appointment :=
  ⟨s.nextId, patientId, doctorId, date, time, reason, notes,
   Status.Scheduled, env.today⟩

/-- Modelled from the spec: `BookingService.book` (spec section 4.3),
with its fail-fast validation order: empty reason → InvalidInput; then
the doctor is resolved (needed to consult the template); time outside
the template → InvalidSlot; past date or non-working day → InvalidSlot;
then `hold`, AlreadyHeld → SlotConflict with no state change; on success
the appointment is persisted with status Scheduled. -/
def book (env : Env) (s : Store) (patientId doctorId date : Nat)
    (time reason notes : String) : Except BookingError Appointment × Store :=
  if reason = "" then (Except.error BookingError.InvalidInput, s)
  else
    match findDoctor env doctorId with
    | none => (Except.error BookingError.DoctorNotFound, s)
    | some doc =>
      if time ∈ doc.slotTemplate then
        if env.today ≤ date ∧ jsGetDay date ∈ doc.workingDays then
          match hold s.index (doctorId, date, time) with
          | none => (Except.error BookingError.SlotConflict, s)
          | some idx2 =>
            (Except.ok (newAppt env s patientId doctorId date time reason notes),
             ⟨newAppt env s patientId doctorId date time reason notes :: s.appts,
              idx2, s.nextId + 1⟩)
        else (Except.error BookingError.InvalidSlot, s)
      else (Except.error BookingError.InvalidSlot, s)

/-- Modelled from the spec: `LifecycleManager.cancel(appointmentId,
requestingPatientId)` (spec section 4.4): NotFound if absent, Forbidden
if the requester does not own it, InvalidTransition unless Scheduled;
otherwise the status becomes Cancelled and the slot is released, as one
atomic state change. -/
def cancel (s : Store) (aid requesterId : Nat) : Except CancelError Unit × Store :=
  match s.appts.find? (fun a => a.id == aid) with
  | none => (Except.error CancelError.NotFound, s)
  | some a =>
    if requesterId = a.patientId then
      if a.status = Status.Scheduled then
        (Except.ok (),
         ⟨s.appts.map (fun b => if b.id = aid then { b with status := Status.Cancelled } else b),
          release s.index a.slotKey, s.nextId⟩)
      else (Except.error CancelError.InvalidTransition, s)
    else (Except.error CancelError.Forbidden, s)

/-- Modelled from the spec: the `Scheduled → Completed` transition of
LifecycleManager (spec section 4.4); the availability index is not
released on completion (spec section 3). -/
def complete (s : Store) (aid : Nat) : Except CancelError Unit × Store :=
  match s.appts.find? (fun a => a.id == aid) with
  | none => (Except.error CancelError.NotFound, s)
  | some a =>
    if a.status = Status.Scheduled then
      (Except.ok (),
       ⟨s.appts.map (fun b => if b.id = aid then { b with status := Status.Completed } else b),
        s.index, s.nextId⟩)
    else (Except.error CancelError.InvalidTransition, s)

/- ----------------------------------------------------------------
   QueryService.  Modelled from the spec (section 4.5); the backend file
   is not in the source tree.
   ---------------------------------------------------------------- -/

/-- Insert an element into a list ahead of the first entry it compares
at-or-below; used to implement a stable sort by structural recursion. -/
def orderedInsert {α : Type} (le : α → α → Bool) (a : α) : List α → List α
  | [] => [a]
  | b :: l => if le a b then a :: b :: l else b :: orderedInsert le a l

/-- Stable insertion sort by a boolean comparison; structural recursion,
so it evaluates inside the kernel. -/
def insertionSort {α : Type} (le : α → α → Bool) : List α → List α
  | [] => []
  | a :: l => orderedInsert le a (insertionSort le l)

/-- The numeric value of a decimal digit character. -/
def digitVal (c : Char) : Nat := c.toNat - 48

/-- Minutes since midnight denoted by a template time string of the
form "HH:MM AM" or "HH:MM PM", such as "09:00 AM" or "02:30 PM"; the
chronological key behind "calendar chronology" ordering of
times-of-day. -/
def timeMinutes (s : String) : Nat :=
  match s.data with
  | h1 :: h2 :: _ :: m1 :: m2 :: _ :: ap :: _ =>
    let h := digitVal h1 * 10 + digitVal h2
    let m := digitVal m1 * 10 + digitVal m2
    let h24 := if ap = 'P' then (if h = 12 then 12 else h + 12)
               else (if h = 12 then 0 else h)
    h24 * 60 + m
  | _ => 0

/-- The comparison used to order a patient's appointments: date
ascending, then time-of-day ascending in calendar chronology
(spec section 4.5). -/
def chronLE (a b : Appointment) : Bool :=
  decide (a.date < b.date) ||
    (a.date == b.date && decide (timeMinutes a.time ≤ timeMinutes b.time))

/-- Modelled from the spec: `listForPatient(patientId)` (spec section
4.5): the patient's appointments, stably sorted by date ascending then
time-of-day ascending. -/
def listForPatient (s : Store) (pid : Nat) : List Appointment :=
  insertionSort chronLE (s.appts.filter (fun a => decide (a.patientId = pid)))

/-- Modelled from the spec: `upcomingCount(patientId, now)` (spec
section 4.5): Scheduled appointments of the patient dated on or after
the given day. -/
def upcomingCount (s : Store) (pid today : Nat) : Nat :=
  ((s.appts.filter (fun a => decide (a.patientId = pid))).filter
     (fun a => decide (a.status = Status.Scheduled ∧ today ≤ a.date))).length

/-- The dashboard aggregate (spec section 4.5). -/
structure Summary where
  totalCount : Nat
  upcoming : Nat
  recent : List Appointment
deriving DecidableEq, Repr

/-- Modelled from the spec: `dashboardSummary(patientId)` (spec section
4.5): total count, upcoming count, and the chronologically nearest 4
Scheduled appointments (the product slices 4, as the dashboard's
`recent_appointments.slice(0, 4)` shows). -/
def dashboardSummary (env : Env) (s : Store) (pid : Nat) : Summary :=
  let mine := listForPatient s pid
  { totalCount := mine.length
  , upcoming :=
      (mine.filter (fun a => decide (a.status = Status.Scheduled ∧ env.today ≤ a.date))).length
  , recent := (mine.filter (fun a => decide (a.status = Status.Scheduled))).take 4 }

/-- The dashboard read as a state-passing operation: it computes the
summary and leaves the store untouched (purely derived, spec section
4.5). -/
def dashboardSummaryOp (env : Env) (s : Store) (pid : Nat) : Summary × Store :=
  (dashboardSummary env s pid, s)

/- ----------------------------------------------------------------
   Invariants and reachability.
   ---------------------------------------------------------------- -/

/-- The Scheduled appointments of the store claiming a given slot. -/
def scheduledAt (s : Store) (k : SlotKey) : List Appointment :=
  s.appts.filter (fun a => decide (a.status = Status.Scheduled ∧ a.slotKey = k))

/-- Slot uniqueness: at most one Scheduled appointment per
(doctorId, date, timeOfDay) (spec section 3). -/
def UniqueScheduled (s : Store) : Prop :=
  ∀ k, (scheduledAt s k).length ≤ 1

/-- Index coupling: every Scheduled appointment's slot is held in the
availability index (spec section 3). -/
def Coupled (s : Store) : Prop :=
  ∀ a ∈ s.appts, a.status = Status.Scheduled → a.slotKey ∈ s.index

/-- The inductive invariant of the scheduling core. -/
def Inv (s : Store) : Prop := UniqueScheduled s ∧ Coupled s

/-- States reachable from the empty store under the three mutating
operations, with arbitrary request environments and arguments. -/
inductive Reachable : Store → Prop where
  | init : Reachable Store.init
  | stepBook (env : Env) (p d date : Nat) (t r n : String) {s : Store} :
      Reachable s → Reachable (book env s p d date t r n).2
  | stepCancel (aid rp : Nat) {s : Store} :
      Reachable s → Reachable (cancel s aid rp).2
  | stepComplete (aid : Nat) {s : Store} :
      Reachable s → Reachable (complete s aid).2

/-- A booking result that produced an appointment. -/
def succeeded (r : Except BookingError Appointment) : Prop :=
  ∃ a, r = Except.ok a

/- Concrete instances used to exercise the theorems. -/

/-- A demonstration doctor working Monday through Saturday with the
product's template. -/
def demoDoctor : Doctor := ⟨1, "General Medicine", [1, 2, 3, 4, 5, 6], timeSlots, 100⟩

/-- A demonstration environment: one doctor, current day 5 (a Tuesday). -/
def demoEnv : Env := ⟨[demoDoctor], 5⟩

/-- The store after one successful booking from the empty store. -/
def demoStore : Store := (book demoEnv Store.init 7 1 6 "09:00 AM" "checkup" "").2

/-- The appointment created by that booking. -/
def demoAppt : Appointment := ⟨0, 7, 1, 6, "09:00 AM", "checkup", "", Status.Scheduled, 5⟩

/-- The store after five successful bookings of the same patient. -/
def demoStore5 : Store :=
  (book demoEnv (book demoEnv (book demoEnv (book demoEnv (book demoEnv Store.init
    7 1 6 "09:00 AM" "a" "").2 7 1 6 "09:30 AM" "b" "").2 7 1 6 "10:00 AM" "c" "").2
    7 1 6 "10:30 AM" "d" "").2 7 1 6 "11:00 AM" "e" "").2

/-- The earliest of the five demonstration appointments. -/
def demoApptA : Appointment := ⟨0, 7, 1, 6, "09:00 AM", "a", "", Status.Scheduled, 5⟩

/-- The latest of the five demonstration appointments. -/
def demoApptB : Appointment := ⟨4, 7, 1, 6, "11:00 AM", "e", "", Status.Scheduled, 5⟩

/- ----------------------------------------------------------------
   Helper lemmas.
   ---------------------------------------------------------------- -/

theorem two_mem_le_length {α : Type} {x y : α} {l : List α}
    (hx : x ∈ l) (hy : y ∈ l) (hxy : x ≠ y) : 2 ≤ l.length := by
  induction l with
  | nil => cases hx
  | cons a tl ih =>
    rcases List.mem_cons.mp hx with rfl | hx2
    · rcases List.mem_cons.mp hy with rfl | hy2
      · exact absurd rfl hxy
      · have h0 : 0 < tl.length := List.length_pos_of_mem hy2
        simp only [List.length_cons]
        omega
    · rcases List.mem_cons.mp hy with rfl | hy2
      · have h0 : 0 < tl.length := List.length_pos_of_mem hx2
        simp only [List.length_cons]
        omega
      · have h2 := ih hx2 hy2
        simp only [List.length_cons]
        omega

theorem length_filter_map_le {α β : Type} (f : α → β) (p : β → Bool) (q : α → Bool)
    (l : List α) (h : ∀ b ∈ l, p (f b) = true → q b = true) :
    ((l.map f).filter p).length ≤ (l.filter q).length := by
  rw [← List.countP_eq_length_filter, ← List.countP_eq_length_filter, List.countP_map]
  exact List.countP_mono_left (fun b hb hpb => h b hb hpb)

theorem hold_eq_some {idx idx2 : List SlotKey} {k : SlotKey}
    (h : hold idx k = some idx2) : k ∉ idx ∧ idx2 = k :: idx := by
  unfold hold at h
  by_cases hk : k ∈ idx
  · simp [hk] at h
  · simp [hk] at h
    exact ⟨hk, h.symm⟩

theorem hold_eq_none {idx : List SlotKey} {k : SlotKey}
    (h : hold idx k = none) : k ∈ idx := by
  unfold hold at h
  by_cases hk : k ∈ idx
  · exact hk
  · simp [hk] at h

theorem mem_scheduledAt {s : Store} {k : SlotKey} {a : Appointment} :
    a ∈ scheduledAt s k ↔ a ∈ s.appts ∧ a.status = Status.Scheduled ∧ a.slotKey = k := by
  simp [scheduledAt, List.mem_filter]

theorem inv_init : Inv Store.init := by
  constructor
  · intro k
    simp [scheduledAt, Store.init]
  · intro a ha
    simp [Store.init] at ha

theorem inv_book (env : Env) (p d date : Nat) (t r n : String) {s : Store}
    (h : Inv s) : Inv (book env s p d date t r n).2 := by
  obtain ⟨hu, hc⟩ := h
  unfold book
  repeat' split
  all_goals try exact ⟨hu, hc⟩
  rename_i idx2 hhold
  obtain ⟨hfree, rfl⟩ := hold_eq_some hhold
  constructor
  · intro k2
    show (List.filter _ (newAppt env s p d date t r n :: s.appts)).length ≤ 1
    rw [List.filter_cons]
    by_cases hk : (d, date, t) = k2
    · have hpred : (decide ((newAppt env s p d date t r n).status = Status.Scheduled ∧
          (newAppt env s p d date t r n).slotKey = k2)) = true := by
        simp [newAppt, Appointment.slotKey, hk]
      rw [if_pos hpred]
      have hnil : List.filter
          (fun a => decide (a.status = Status.Scheduled ∧ a.slotKey = k2)) s.appts = [] := by
        rw [List.filter_eq_nil_iff]
        intro b hb
        simp only [decide_eq_true_eq, not_and]
        intro hbs hbk
        exact hfree (hk ▸ hbk ▸ hc b hb hbs)
      rw [hnil]
      simp
    · have hpred : (decide ((newAppt env s p d date t r n).status = Status.Scheduled ∧
          (newAppt env s p d date t r n).slotKey = k2)) = false := by
        simp [newAppt, Appointment.slotKey]
        intro hk2
        exact absurd hk2 hk
      rw [if_neg (by simp [hpred])]
      exact hu k2
  · intro b hb hbs
    rcases List.mem_cons.mp hb with hb1 | hb2
    · show b.slotKey ∈ (d, date, t) :: s.index
      have hbk : b.slotKey = (d, date, t) := by
        rw [hb1]
        simp [newAppt, Appointment.slotKey]
      rw [hbk]
      exact List.mem_cons_self _ _
    · exact List.mem_cons_of_mem _ (hc b hb2 hbs)

theorem inv_cancel (aid rp : Nat) {s : Store} (h : Inv s) :
    Inv (cancel s aid rp).2 := by
  obtain ⟨hu, hc⟩ := h
  unfold cancel
  repeat' split
  all_goals try exact ⟨hu, hc⟩
  rename_i a0 hfind hrp hsched
  have ha0mem : a0 ∈ s.appts := List.mem_of_find?_eq_some hfind
  have ha0id : a0.id = aid := by simpa using List.find?_some hfind
  constructor
  · intro k2
    have hstep : ∀ b ∈ s.appts,
        (decide ((if b.id = aid then { b with status := Status.Cancelled } else b).status
            = Status.Scheduled ∧
          (if b.id = aid then { b with status := Status.Cancelled } else b).slotKey = k2)) = true →
        (decide (b.status = Status.Scheduled ∧ b.slotKey = k2)) = true := by
      intro b _ hpb
      by_cases hid : b.id = aid
      · rw [if_pos hid] at hpb
        simp at hpb
      · rwa [if_neg hid] at hpb
    have hle := length_filter_map_le
      (fun b => if b.id = aid then { b with status := Status.Cancelled } else b)
      (fun a => decide (a.status = Status.Scheduled ∧ a.slotKey = k2))
      (fun a => decide (a.status = Status.Scheduled ∧ a.slotKey = k2)) s.appts hstep
    exact le_trans hle (hu k2)
  · intro b2 hb2 hb2s
    simp only [List.mem_map] at hb2
    obtain ⟨b, hb, rfl⟩ := hb2
    by_cases hid : b.id = aid
    · rw [if_pos hid] at hb2s
      simp at hb2s
    · rw [if_neg hid] at hb2s ⊢
      have hkey := hc b hb hb2s
      show b.slotKey ∈ release s.index a0.slotKey
      simp only [release, List.mem_filter, decide_eq_true_eq]
      refine ⟨hkey, ?_⟩
      intro hkk
      have hb0 : a0 ∈ scheduledAt s a0.slotKey := mem_scheduledAt.mpr ⟨ha0mem, hsched, rfl⟩
      have hbb : b ∈ scheduledAt s a0.slotKey := mem_scheduledAt.mpr ⟨hb, hb2s, hkk⟩
      have hne : b ≠ a0 := fun hba => hid (hba ▸ ha0id)
      have h2 := two_mem_le_length hbb hb0 hne
      have h1 := hu a0.slotKey
      omega

theorem inv_complete (aid : Nat) {s : Store} (h : Inv s) :
    Inv (complete s aid).2 := by
  obtain ⟨hu, hc⟩ := h
  unfold complete
  repeat' split
  all_goals try exact ⟨hu, hc⟩
  rename_i a0 hfind hsched
  constructor
  · intro k2
    have hstep : ∀ b ∈ s.appts,
        (decide ((if b.id = aid then { b with status := Status.Completed } else b).status
            = Status.Scheduled ∧
          (if b.id = aid then { b with status := Status.Completed } else b).slotKey = k2)) = true →
        (decide (b.status = Status.Scheduled ∧ b.slotKey = k2)) = true := by
      intro b _ hpb
      by_cases hid : b.id = aid
      · rw [if_pos hid] at hpb
        simp at hpb
      · rwa [if_neg hid] at hpb
    have hle := length_filter_map_le
      (fun b => if b.id = aid then { b with status := Status.Completed } else b)
      (fun a => decide (a.status = Status.Scheduled ∧ a.slotKey = k2))
      (fun a => decide (a.status = Status.Scheduled ∧ a.slotKey = k2)) s.appts hstep
    exact le_trans hle (hu k2)
  · intro b2 hb2 hb2s
    simp only [List.mem_map] at hb2
    obtain ⟨b, hb, rfl⟩ := hb2
    by_cases hid : b.id = aid
    · rw [if_pos hid] at hb2s
      simp at hb2s
    · rw [if_neg hid] at hb2s ⊢
      exact hc b hb hb2s

theorem reachable_inv {s : Store} (h : Reachable s) : Inv s := by
  induction h with
  | init => exact inv_init
  | stepBook env p d date t r n _ ih => exact inv_book env p d date t r n ih
  | stepCancel aid rp _ ih => exact inv_cancel aid rp ih
  | stepComplete aid _ ih => exact inv_complete aid ih

theorem perm_orderedInsert {α : Type} (le : α → α → Bool) (a : α) (l : List α) :
    List.Perm (orderedInsert le a l) (a :: l) := by
  induction l with
  | nil => exact List.Perm.refl _
  | cons b l ih =>
    rw [orderedInsert]
    by_cases hab : le a b
    · rw [if_pos hab]
    · rw [if_neg hab]
      exact (List.Perm.cons b ih).trans (List.Perm.swap a b l)

theorem mem_orderedInsert {α : Type} {le : α → α → Bool} {a x : α} {l : List α} :
    x ∈ orderedInsert le a l ↔ x = a ∨ x ∈ l := by
  rw [(perm_orderedInsert le a l).mem_iff, List.mem_cons]

theorem perm_insertionSort {α : Type} (le : α → α → Bool) (l : List α) :
    List.Perm (insertionSort le l) l := by
  induction l with
  | nil => exact List.Perm.refl _
  | cons a l ih =>
    rw [insertionSort]
    exact (perm_orderedInsert le a (insertionSort le l)).trans (List.Perm.cons a ih)

theorem pairwise_orderedInsert {α : Type} {le : α → α → Bool}
    (total : ∀ a b, le a b || le b a)
    (trans : ∀ a b c, le a b → le b c → le a c)
    (a : α) {l : List α} (h : l.Pairwise (fun x y => le x y = true)) :
    (orderedInsert le a l).Pairwise (fun x y => le x y = true) := by
  induction l with
  | nil =>
    rw [orderedInsert]
    exact List.pairwise_singleton _ _
  | cons b l ih =>
    rw [orderedInsert]
    by_cases hab : le a b
    · rw [if_pos hab]
      refine List.Pairwise.cons ?_ h
      intro x hx
      rcases List.mem_cons.mp hx with rfl | hx2
      · exact hab
      · exact trans a b x hab (List.rel_of_pairwise_cons h hx2)
    · rw [if_neg hab]
      have hba : le b a = true := by
        have h1 := total a b
        rw [Bool.or_eq_true] at h1
        rcases h1 with h1 | h1
        · exact absurd h1 hab
        · exact h1
      refine List.Pairwise.cons ?_ (ih (List.pairwise_cons.mp h).2)
      intro x hx
      rcases mem_orderedInsert.mp hx with rfl | hx2
      · exact hba
      · exact (List.pairwise_cons.mp h).1 x hx2

theorem pairwise_insertionSort {α : Type} {le : α → α → Bool}
    (total : ∀ a b, le a b || le b a)
    (trans : ∀ a b c, le a b → le b c → le a c) (l : List α) :
    (insertionSort le l).Pairwise (fun x y => le x y = true) := by
  induction l with
  | nil => exact List.Pairwise.nil
  | cons a l ih =>
    rw [insertionSort]
    exact pairwise_orderedInsert total trans a ih

theorem filter_orderedInsert {α : Type} (le : α → α → Bool) (p : α → Bool)
    (a : α) (l : List α) (hab : ∀ b ∈ l, p a = true → p b = true → le a b = true) :
    (orderedInsert le a l).filter p =
      if p a then a :: l.filter p else l.filter p := by
  induction l with
  | nil =>
    rw [orderedInsert]
    cases hpa : p a <;> simp [List.filter_cons, hpa]
  | cons b l ih =>
    rw [orderedInsert]
    by_cases hle : le a b
    · rw [if_pos hle]
      cases hpa : p a <;> simp [List.filter_cons, hpa]
    · rw [if_neg hle]
      have ih2 := ih (fun c hc => hab c (List.mem_cons_of_mem b hc))
      cases hpa : p a
      · rw [if_neg (by simp [hpa])] at ih2 ⊢
        cases hpb : p b <;> simp [List.filter_cons, hpa, hpb, ih2]
      · rw [if_pos (by simp [hpa])] at ih2 ⊢
        cases hpb : p b
        · simp [List.filter_cons, hpb, ih2]
        · exact absurd (hab b (List.mem_cons_self b l) hpa hpb) hle

theorem filter_insertionSort {α : Type} (le : α → α → Bool) (p : α → Bool)
    (hkey : ∀ x y, p x = true → p y = true → le x y = true) (l : List α) :
    (insertionSort le l).filter p = l.filter p := by
  induction l with
  | nil => rfl
  | cons a l ih =>
    rw [insertionSort,
      filter_orderedInsert le p a (insertionSort le l)
        (fun b _ hpa hpb => hkey a b hpa hpb)]
    cases hpa : p a <;> simp [List.filter_cons, hpa, ih]

theorem book_success {env : Env} {s : Store} {p d date : Nat} {t r n : String}
    {doc : Doctor} (hr : r ≠ "") (hdoc : findDoctor env d = some doc)
    (ht : t ∈ doc.slotTemplate) (hd1 : env.today ≤ date)
    (hd2 : jsGetDay date ∈ doc.workingDays) (hfree : (d, date, t) ∉ s.index) :
    book env s p d date t r n =
      (Except.ok (newAppt env s p d date t r n),
       ⟨newAppt env s p d date t r n :: s.appts, (d, date, t) :: s.index, s.nextId + 1⟩) := by
  unfold book hold
  rw [if_neg hr]
  simp only [hdoc]
  rw [if_pos ht, if_pos ⟨hd1, hd2⟩, if_neg hfree]

theorem book_conflict {env : Env} {s : Store} {p d date : Nat} {t r n : String}
    {doc : Doctor} (hr : r ≠ "") (hdoc : findDoctor env d = some doc)
    (ht : t ∈ doc.slotTemplate) (hd1 : env.today ≤ date)
    (hd2 : jsGetDay date ∈ doc.workingDays) (hheld : (d, date, t) ∈ s.index) :
    book env s p d date t r n = (Except.error BookingError.SlotConflict, s) := by
  unfold book hold
  rw [if_neg hr]
  simp only [hdoc]
  rw [if_pos ht, if_pos ⟨hd1, hd2⟩, if_pos hheld]

theorem book_ok_mem_index {env : Env} {s : Store} {p d date : Nat} {t r n : String}
    {a : Appointment} (h : (book env s p d date t r n).1 = Except.ok a) :
    (d, date, t) ∈ (book env s p d date t r n).2.index := by
  unfold book at h ⊢
  repeat' split
  all_goals simp_all
  rename_i idx2 hhold
  obtain ⟨_, rfl⟩ := hold_eq_some hhold
  exact List.mem_cons_self _ _

theorem book_held_not_ok {env : Env} {s : Store} {p d date : Nat} {t r n : String}
    (hheld : (d, date, t) ∈ s.index) (a : Appointment) :
    (book env s p d date t r n).1 ≠ Except.ok a := by
  intro hok
  unfold book at hok
  repeat' split at hok
  all_goals simp_all
  rename_i idx2 hhold
  exact (hold_eq_some hhold).1 hheld

/- ----------------------------------------------------------------
   Claim theorems.
   ---------------------------------------------------------------- -/

/-- C4: a book call whose reason argument is empty fails with
InvalidInput before any other check runs — whatever the doctor, slot,
date or index state — and the store is returned unchanged: no
appointment is created and no slot is held. -/
theorem C4_empty_reason_invalid_input :
    ∀ (env : Env) (s : Store) (p d date : Nat) (t n : String),
      book env s p d date t "" n = (Except.error BookingError.InvalidInput, s) := by
  intro env s p d date t n
  unfold book
  rw [if_pos rfl]

/-- C5: a cancel call by a requester who is not the owning patient of an
existing appointment fails with Forbidden and returns the store
unchanged — neither the appointment's status nor the availability index
moves. -/
theorem C5_cancel_forbidden_unchanged :
    ∀ (s : Store) (aid rp : Nat) (a : Appointment),
      s.appts.find? (fun b => b.id == aid) = some a →
      rp ≠ a.patientId →
      cancel s aid rp = (Except.error CancelError.Forbidden, s) := by
  intro s aid rp a hfind hrp
  unfold cancel
  simp only [hfind]
  rw [if_neg hrp]

theorem C5_cancel_forbidden_unchanged_witness :
    demoStore.appts.find? (fun b => b.id == 0) = some demoAppt ∧
    (9 : Nat) ≠ demoAppt.patientId ∧
    cancel demoStore 0 9 = (Except.error CancelError.Forbidden, demoStore) :=
  ⟨by decide, by decide,
   C5_cancel_forbidden_unchanged demoStore 0 9 demoAppt (by decide) (by decide)⟩

/-- C6: the listing for a patient never contains another patient's
appointments — every element of `listForPatient s pid` has
patientId = pid, whatever the store contents. -/
theorem C6_list_only_own_appointments :
    ∀ (s : Store) (pid : Nat) (a : Appointment),
      a ∈ listForPatient s pid → a.patientId = pid := by
  intro s pid a ha
  unfold listForPatient at ha
  rw [(perm_insertionSort chronLE _).mem_iff] at ha
  simp only [List.mem_filter, decide_eq_true_eq] at ha
  exact ha.2

theorem C6_list_only_own_appointments_witness :
    demoAppt ∈ listForPatient demoStore 7 ∧ demoAppt.patientId = 7 :=
  ⟨by decide, C6_list_only_own_appointments demoStore 7 demoAppt (by decide)⟩

/-- C8: release is idempotent — releasing a key twice leaves the index
exactly as releasing it once does — and releasing a key that is not held
is a no-op returning the index unchanged (no error is possible: release
is total). -/
theorem C8_release_idempotent :
    ∀ (idx : List SlotKey) (k : SlotKey),
      release (release idx k) k = release idx k ∧
      (k ∉ idx → release idx k = idx) := by
  intro idx k
  constructor
  · unfold release
    rw [List.filter_filter]
    apply List.filter_congr
    intro a _
    cases h : decide (a ≠ k) <;> simp [h]
  · intro hk
    unfold release
    apply List.filter_eq_self.mpr
    intro a ha
    simp only [decide_eq_true_eq]
    intro heq
    exact hk (heq ▸ ha)

theorem C8_release_idempotent_witness :
    ((2, 6, "10:00 AM") : SlotKey) ∉ [((1, 5, "09:00 AM") : SlotKey)] ∧
    release [((1, 5, "09:00 AM") : SlotKey)] (2, 6, "10:00 AM") =
      [((1, 5, "09:00 AM") : SlotKey)] :=
  ⟨by decide,
   (C8_release_idempotent [((1, 5, "09:00 AM") : SlotKey)] (2, 6, "10:00 AM")).2 (by decide)⟩

/-- C10: the slot template is one fixed global list of 12 times-of-day,
"09:00 AM" through "04:30 PM", identical for every doctor (the picker
renders the same module-level constant whichever doctor is selected),
and every time value the appointment form can submit — the field starts
empty, is only set by picker buttons, and the submit guard rejects the
empty value — is an element of this list. -/
theorem C10_fixed_global_template :
    timeSlots.length = 12 ∧
    timeSlots.head? = some "09:00 AM" ∧
    timeSlots.getLast? = some "04:30 PM" ∧
    (∀ doc : Doctor, pickerTimes doc = timeSlots) ∧
    (∀ t : String, FormTimeReachable t → submitTimeAccepted t = true → t ∈ timeSlots) := by
  refine ⟨by decide, by decide, by decide, fun doc => rfl, ?_⟩
  intro t ht
  induction ht with
  | init =>
    intro hacc
    simp [submitTimeAccepted] at hacc
  | click prev t2 doc hprev hmem ih =>
    intro _
    exact hmem

theorem C10_fixed_global_template_witness :
    FormTimeReachable "02:00 PM" ∧ submitTimeAccepted "02:00 PM" = true ∧
    "02:00 PM" ∈ timeSlots :=
  ⟨FormTimeReachable.click "" "02:00 PM" demoDoctor FormTimeReachable.init (by decide),
   by decide,
   C10_fixed_global_template.2.2.2.2 "02:00 PM"
     (FormTimeReachable.click "" "02:00 PM" demoDoctor FormTimeReachable.init (by decide))
     (by decide)⟩

theorem chronLE_total : ∀ a b : Appointment, chronLE a b || chronLE b a := by
  intro a b
  simp only [chronLE, Bool.or_eq_true, Bool.and_eq_true, decide_eq_true_eq, beq_iff_eq]
  omega

theorem chronLE_trans : ∀ a b c : Appointment,
    chronLE a b → chronLE b c → chronLE a c := by
  intro a b c hab hbc
  simp only [chronLE, Bool.or_eq_true, Bool.and_eq_true, decide_eq_true_eq,
    beq_iff_eq] at hab hbc ⊢
  omega

/-- C7: the listing for a patient is sorted by date ascending and,
within equal dates, by time-of-day ascending in calendar chronology
(minutes since midnight of the time string, so "02:00 PM" sorts after
"09:00 AM"), and the sort is stable: restricted to any one
(date, time) key, the output keeps exactly the order in which those
appointments sit in the store. -/
theorem C7_list_sorted_and_stable :
    ∀ (s : Store) (pid : Nat),
      (listForPatient s pid).Pairwise
        (fun a b => a.date < b.date ∨
          (a.date = b.date ∧ timeMinutes a.time ≤ timeMinutes b.time)) ∧
      ∀ (dv tv : Nat),
        (listForPatient s pid).filter
            (fun a => decide (a.date = dv ∧ timeMinutes a.time = tv)) =
          (s.appts.filter (fun a => decide (a.patientId = pid))).filter
            (fun a => decide (a.date = dv ∧ timeMinutes a.time = tv)) := by
  intro s pid
  constructor
  · have h := pairwise_insertionSort chronLE_total chronLE_trans
      (s.appts.filter (fun a => decide (a.patientId = pid)))
    refine h.imp ?_
    intro a b hab
    simpa only [chronLE, Bool.or_eq_true, Bool.and_eq_true, decide_eq_true_eq,
      beq_iff_eq] using hab
  · intro dv tv
    exact filter_insertionSort chronLE
      (fun a => decide (a.date = dv ∧ timeMinutes a.time = tv))
      (by
        intro x y hpx hpy
        simp only [decide_eq_true_eq] at hpx hpy
        simp only [chronLE, Bool.or_eq_true, Bool.and_eq_true, decide_eq_true_eq,
          beq_iff_eq]
        omega)
      (s.appts.filter (fun a => decide (a.patientId = pid)))

/-- C1: in every reachable state of the appointment store at most one
Scheduled appointment exists per (doctorId, date, timeOfDay) — the
uniqueness is preserved by book, cancel and complete, since reachability
closes over all three — and an otherwise-valid book call on a slot
already held by a Scheduled appointment fails with SlotConflict,
returning the store unchanged: no appointment created, no partial
state. -/
theorem C1_scheduled_slot_unique :
    ∀ s : Store, Reachable s →
      (∀ k : SlotKey, (scheduledAt s k).length ≤ 1) ∧
      (∀ (env : Env) (p d date : Nat) (t r n : String) (doc : Doctor),
        r ≠ "" → findDoctor env d = some doc → t ∈ doc.slotTemplate →
        env.today ≤ date → jsGetDay date ∈ doc.workingDays →
        (∃ a ∈ s.appts, a.status = Status.Scheduled ∧ a.slotKey = (d, date, t)) →
        book env s p d date t r n = (Except.error BookingError.SlotConflict, s)) := by
  intro s hs
  obtain ⟨hu, hc⟩ := reachable_inv hs
  refine ⟨hu, ?_⟩
  rintro env p d date t r n doc hr hdoc ht hd1 hd2 ⟨a, ha, has, hak⟩
  exact book_conflict hr hdoc ht hd1 hd2 (hak ▸ hc a ha has)

theorem C1_scheduled_slot_unique_witness :
    (scheduledAt demoStore (1, 6, "09:00 AM")).length ≤ 1 ∧
    book demoEnv demoStore 8 1 6 "09:00 AM" "flu" "" =
      (Except.error BookingError.SlotConflict, demoStore) := by
  have h := C1_scheduled_slot_unique demoStore
    (Reachable.stepBook demoEnv 7 1 6 "09:00 AM" "checkup" "" Reachable.init)
  exact ⟨h.1 (1, 6, "09:00 AM"),
    h.2 demoEnv 8 1 6 "09:00 AM" "flu" "" demoDoctor (by decide) (by decide)
      (by decide) (by decide) (by decide) ⟨demoAppt, by decide, by decide, by decide⟩⟩

/-- C2: two book calls for the same (doctorId, date, timeOfDay) never
both succeed, in either execution order (the quantification covers both
orders; `book`'s check-then-act is the spec's atomic unit, so every
interleaving of the two requests is one of the two sequential orders);
and when the slot is free and both requests are otherwise valid, the
first succeeds and the second fails with SlotConflict — exactly one
winner. -/
theorem C2_concurrent_booking_exclusive :
    ∀ (env : Env) (s : Store) (p1 p2 d date : Nat) (t r1 r2 n1 n2 : String),
      (¬ (succeeded (book env s p1 d date t r1 n1).1 ∧
          succeeded (book env (book env s p1 d date t r1 n1).2 p2 d date t r2 n2).1)) ∧
      ((d, date, t) ∉ s.index → r1 ≠ "" → r2 ≠ "" →
        (∃ doc : Doctor, findDoctor env d = some doc ∧ t ∈ doc.slotTemplate ∧
          env.today ≤ date ∧ jsGetDay date ∈ doc.workingDays) →
        succeeded (book env s p1 d date t r1 n1).1 ∧
        (book env (book env s p1 d date t r1 n1).2 p2 d date t r2 n2).1 =
          Except.error BookingError.SlotConflict) := by
  intro env s p1 p2 d date t r1 r2 n1 n2
  constructor
  · rintro ⟨⟨a1, h1⟩, ⟨a2, h2⟩⟩
    exact book_held_not_ok (book_ok_mem_index h1) a2 h2
  · rintro hfree hr1 hr2 ⟨doc, hdoc, ht, hd1, hd2⟩
    rw [book_success hr1 hdoc ht hd1 hd2 hfree]
    constructor
    · exact ⟨newAppt env s p1 d date t r1 n1, rfl⟩
    · have hheld : (d, date, t) ∈
          (⟨newAppt env s p1 d date t r1 n1 :: s.appts, (d, date, t) :: s.index,
            s.nextId + 1⟩ : Store).index :=
        List.mem_cons_self _ _
      rw [book_conflict hr2 hdoc ht hd1 hd2 hheld]

theorem C2_concurrent_booking_exclusive_witness :
    ((1, 6, "09:00 AM") : SlotKey) ∉ Store.init.index ∧
    succeeded (book demoEnv Store.init 7 1 6 "09:00 AM" "checkup" "").1 ∧
    (book demoEnv (book demoEnv Store.init 7 1 6 "09:00 AM" "checkup" "").2
        8 1 6 "09:00 AM" "flu" "").1 = Except.error BookingError.SlotConflict := by
  have h := (C2_concurrent_booking_exclusive demoEnv Store.init 7 8 1 6 "09:00 AM"
    "checkup" "flu" "" "").2 (by decide) (by decide) (by decide)
    ⟨demoDoctor, by decide, by decide, by decide, by decide⟩
  exact ⟨by decide, h.1, h.2⟩

/-- C9: the dashboard summary reports the patient's total appointment
count and upcoming count, and its recent list holds at most 4
appointments, all Scheduled and all the patient's own, and they are the
chronologically nearest ones: every kept appointment sorts at or before
every Scheduled appointment of the patient that was left out; computing
the summary is purely derived — the operation returns the store
unchanged. -/
theorem C9_dashboard_summary :
    ∀ (env : Env) (s : Store) (pid : Nat),
      (dashboardSummary env s pid).totalCount =
        (s.appts.filter (fun a => decide (a.patientId = pid))).length ∧
      (dashboardSummary env s pid).upcoming = upcomingCount s pid env.today ∧
      (dashboardSummary env s pid).recent.length ≤ 4 ∧
      (∀ a ∈ (dashboardSummary env s pid).recent,
        a.status = Status.Scheduled ∧ a.patientId = pid) ∧
      (∀ a ∈ (dashboardSummary env s pid).recent,
        ∀ b ∈ s.appts, b.patientId = pid → b.status = Status.Scheduled →
          b ∉ (dashboardSummary env s pid).recent →
          (a.date < b.date ∨
            (a.date = b.date ∧ timeMinutes a.time ≤ timeMinutes b.time))) ∧
      dashboardSummaryOp env s pid = (dashboardSummary env s pid, s) := by
  intro env s pid
  refine ⟨?_, ?_, ?_, ?_, ?_, rfl⟩
  · show (listForPatient s pid).length = _
    exact (perm_insertionSort chronLE _).length_eq
  · show ((listForPatient s pid).filter
      (fun a => decide (a.status = Status.Scheduled ∧ env.today ≤ a.date))).length = _
    unfold upcomingCount
    exact ((perm_insertionSort chronLE _).filter _).length_eq
  · show (((listForPatient s pid).filter
      (fun a => decide (a.status = Status.Scheduled))).take 4).length ≤ 4
    rw [List.length_take]
    exact min_le_left _ _
  · intro a ha
    have ha2 : a ∈ (listForPatient s pid).filter
        (fun x => decide (x.status = Status.Scheduled)) :=
      (List.take_sublist 4 _).subset ha
    have hst := List.of_mem_filter ha2
    simp only [decide_eq_true_eq] at hst
    have hmem := List.mem_of_mem_filter ha2
    unfold listForPatient at hmem
    rw [(perm_insertionSort chronLE _).mem_iff] at hmem
    have hpid := List.of_mem_filter hmem
    simp only [decide_eq_true_eq] at hpid
    exact ⟨hst, hpid⟩
  · intro a ha b hb hbpid hbst hbnot
    have hb1 : b ∈ s.appts.filter (fun x => decide (x.patientId = pid)) :=
      List.mem_filter.mpr ⟨hb, by simp [hbpid]⟩
    have hb2 : b ∈ listForPatient s pid := by
      unfold listForPatient
      rw [(perm_insertionSort chronLE _).mem_iff]
      exact hb1
    have hb3 : b ∈ (listForPatient s pid).filter
        (fun x => decide (x.status = Status.Scheduled)) :=
      List.mem_filter.mpr ⟨hb2, by simp [hbst]⟩
    have hbdrop : b ∈ ((listForPatient s pid).filter
        (fun x => decide (x.status = Status.Scheduled))).drop 4 := by
      have hsplit := List.take_append_drop 4 ((listForPatient s pid).filter
        (fun x => decide (x.status = Status.Scheduled)))
      rw [← hsplit] at hb3
      rcases List.mem_append.mp hb3 with h4 | h4
      · exact absurd h4 hbnot
      · exact h4
    have hpair : ((listForPatient s pid).filter
        (fun x => decide (x.status = Status.Scheduled))).Pairwise
        (fun x y => chronLE x y = true) :=
      (pairwise_insertionSort chronLE_total chronLE_trans
        (s.appts.filter (fun x => decide (x.patientId = pid)))).sublist
        (List.filter_sublist _)
    have hrel : chronLE a b = true := by
      rw [← List.take_append_drop 4 ((listForPatient s pid).filter
        (fun x => decide (x.status = Status.Scheduled)))] at hpair
      exact (List.pairwise_append.mp hpair).2.2 a ha b hbdrop
    simpa only [chronLE, Bool.or_eq_true, Bool.and_eq_true, decide_eq_true_eq,
      beq_iff_eq] using hrel

theorem C9_dashboard_summary_witness :
    demoApptA ∈ (dashboardSummary demoEnv demoStore5 7).recent ∧
    demoApptB ∈ demoStore5.appts ∧
    demoApptB.patientId = 7 ∧
    demoApptB.status = Status.Scheduled ∧
    demoApptB ∉ (dashboardSummary demoEnv demoStore5 7).recent ∧
    (demoApptA.date < demoApptB.date ∨
      (demoApptA.date = demoApptB.date ∧
        timeMinutes demoApptA.time ≤ timeMinutes demoApptB.time)) :=
  ⟨by decide, by decide, by decide, by decide, by decide,
   (C9_dashboard_summary demoEnv demoStore5 7).2.2.2.2.1 demoApptA (by decide)
     demoApptB (by decide) (by decide) (by decide) (by decide)⟩

/-- C3 counterexample: the claim "for every other date in range, one
slot is offered per template time-of-day" fails for today itself.  With
the range [1, 1], the server clock at noon of day 1 (a Friday), day 1
lies in range, is not before today and is not a Sunday, yet the form
offers no slot at all for it: the source disables any date whose
midnight lies before the current instant (`date < new Date()`), which
excludes today whenever any time has elapsed since midnight. -/
theorem C3_today_offered_nothing :
    (1 ∈ List.range' 1 (1 + 1 - 1)) ∧ ¬ (1 < 1) ∧ jsGetDay 1 ≠ 0 ∧
    offeredSlots demoDoctor 1 1 1 720 = [] := by decide

/-- C3 (amended): for every doctor and every date range, the offered
slots contain no date before today and none on Sunday, and every time
offered is a template time; every date in range whose midnight is not
earlier than the current clock instant (in particular, every strictly
future date) and that is not a Sunday is offered one slot per template
time-of-day — today itself only when the clock reads exactly midnight —
and no slot is offered twice. -/
theorem C3_amended_offered_slots :
    ∀ (doc : Doctor) (lo hi today nowMin : Nat),
      (∀ d t, (d, t) ∈ offeredSlots doc lo hi today nowMin →
        today ≤ d ∧ jsGetDay d ≠ 0 ∧ t ∈ timeSlots) ∧
      (∀ d, lo ≤ d → d ≤ hi → today * 1440 + nowMin ≤ d * 1440 →
        jsGetDay d ≠ 0 →
        ∀ t ∈ timeSlots, (d, t) ∈ offeredSlots doc lo hi today nowMin) ∧
      (offeredSlots doc lo hi today nowMin).Nodup := by
  intro doc lo hi today nowMin
  refine ⟨?_, ?_, ?_⟩
  · intro d t hdt
    unfold offeredSlots at hdt
    rw [List.mem_flatMap] at hdt
    obtain ⟨d2, hd2, hmap⟩ := hdt
    rw [List.mem_map] at hmap
    obtain ⟨t2, ht2, heq⟩ := hmap
    cases heq
    unfold offeredDates at hd2
    rw [List.mem_filter] at hd2
    obtain ⟨_, hnd⟩ := hd2
    simp only [calendarDisabled, Bool.not_eq_true', Bool.or_eq_false_iff,
      decide_eq_false_iff_not, beq_eq_false_iff_ne] at hnd
    exact ⟨by omega, hnd.2, ht2⟩
  · intro d hlo hhi hnow hsun t ht
    unfold offeredSlots
    rw [List.mem_flatMap]
    refine ⟨d, ?_, ?_⟩
    · unfold offeredDates
      rw [List.mem_filter]
      constructor
      · rw [List.mem_range'_1]
        omega
      · have h1 : decide (d * 1440 < today * 1440 + nowMin) = false :=
          decide_eq_false (by omega)
        have h2 : (jsGetDay d == 0) = false := by simp [hsun]
        simp [calendarDisabled, h1, h2]
    · rw [List.mem_map]
      exact ⟨t, ht, rfl⟩
  · have hnd : (offeredDates lo hi today nowMin).Nodup :=
      (List.nodup_range' lo (hi + 1 - lo)).filter _
    unfold offeredSlots
    rw [List.nodup_flatMap]
    constructor
    · intro d2 _
      refine List.Nodup.map ?_ ?_
      · intro t1 t2 h12
        simpa using h12
      · show timeSlots.Nodup
        decide
    · refine List.Pairwise.imp ?_ hnd
      intro d1 d2 hne
      intro x hx1 hx2
      rw [List.mem_map] at hx1 hx2
      obtain ⟨t1, _, rfl⟩ := hx1
      obtain ⟨t2, _, heq⟩ := hx2
      exact hne (congrArg Prod.fst heq).symm

theorem C3_amended_offered_slots_witness :
    ((2, "09:00 AM") ∈ offeredSlots demoDoctor 2 2 1 720) ∧
    ((1 : Nat) ≤ 2 ∧ jsGetDay 2 ≠ 0 ∧ "09:00 AM" ∈ timeSlots) := by
  refine ⟨?_, ?_⟩
  · exact (C3_amended_offered_slots demoDoctor 2 2 1 720).2.1 2 (by decide)
      (by decide) (by decide) (by decide) "09:00 AM" (by decide)
  · exact (C3_amended_offered_slots demoDoctor 2 2 1 720).1 2 "09:00 AM"
      ((C3_amended_offered_slots demoDoctor 2 2 1 720).2.1 2 (by decide)
        (by decide) (by decide) (by decide) "09:00 AM" (by decide))

end VitalSync
